import Mathlib

/-!
Verification development for the `smol` step-execution engine.

The Python source (`smol/core.py`, `smol/toolz.py`) is shallowly embedded
here.  Conventions of the embedding:

* a Python keyword-argument dictionary (`**kwargs`) is an association list
  `Data V := List (String × V)` whose order is the dict's iteration order;
* a Python callable that may raise is a Lean function returning
  `Except Exn _`, where `Exn` carries the rendered exception type
  (the text Python produces for `type(e)` inside an f-string, e.g.
  `"<class 'ValueError'>"`);
* a zero-parameter lambda (the one produced by `skip`) invoked with a
  non-empty keyword dictionary raises `TypeError` in Python; its embedding
  therefore returns `Except.error TypeErrorExn` on non-empty `Data`;
* `attr.s(frozen=True)` classes are plain Lean structures (immutability is
  intrinsic); the only attrs validator on `Spec.steps` is
  `instance_of(tuple)`, which the embedding's types discharge.
-/

namespace Smol

/-- Exception value: `tyRepr` is the text an f-string renders for `type(e)`,
for example `"<class 'ValueError'>"`. -/
structure Exn where
  tyRepr : String
deriving DecidableEq

/-- Keyword-argument dictionary passed between steps, in iteration order. -/
abbrev Data (V : Type) := List (String × V)

/-- Embedding of `smol.core.State` (attrs class, fields in source order:
`data`, `break_execution`, `skipped`, `msg`). -/
structure State (V : Type) where
  data : Data V
  break_execution : Bool
  skipped : Bool
  msg : Option String
deriving DecidableEq

/-- Embedding of `State.is_failure`: `break_execution and not skipped`. -/
def State.is_failure {V : Type} (s : State V) : Bool :=
  s.break_execution && !s.skipped

/-- Embedding of `State.is_success`: `not break_execution and not skipped`. -/
def State.is_success {V : Type} (s : State V) : Bool :=
  !s.break_execution && !s.skipped

/-- Embedding of `State.is_skipped`: returns the `skipped` flag. -/
def State.is_skipped {V : Type} (s : State V) : Bool :=
  s.skipped

/-- Embedding of `smol.core.Step` (attrs class): a callable plus `title` and
`description` metadata.  The callable receives a keyword dictionary and
either returns a `State` or raises. -/
structure Step (V : Type) where
  func : Data V → Except Exn (State V)
  description : String
  title : String

/-- Embedding of `smol.core.success(**kwargs)`: `State` with `data=kwargs`,
`break_execution=False`, `skipped=False`, and `msg` left at its default
`None`. -/
def success {V : Type} (kwargs : Data V) : State V :=
  ⟨kwargs, false, false, none⟩

/-- Embedding of `smol.core.failure(msg)`: `State` with `msg=msg`,
`break_execution=True`, `skipped=False`, and `data` left at its default
empty dict. -/
def failure {V : Type} (msg : String) : State V :=
  ⟨[], true, false, some msg⟩

/-- State manufactured by the zero-argument lambda inside `skip`:
`State(msg="Step skipped." if reason is None else reason, skipped=True)`,
with `data` and `break_execution` at their defaults. -/
def skipState {V : Type} (reason : Option String) : State V :=
  ⟨[], false, true, some (reason.getD "Step skipped.")⟩

/-- Exception raised by Python when a zero-parameter lambda is called with
keyword arguments. -/
def TypeErrorExn : Exn :=
  ⟨"<class 'TypeError'>"⟩

/-- Embedding of `smol.core.skip(step, reason=None)`:
`attr.evolve(step, func=lambda: State(msg=..., skipped=True))` — a copy of
the given step whose callable is a zero-parameter lambda.  Invoking that
lambda with no keyword arguments yields the skip `State`; invoking it with
any keyword argument raises `TypeError` (zero-parameter lambda). -/
def skip {V : Type} (s : Step V) (reason : Option String) : Step V :=
  ⟨fun d =>
    match d with
    | [] => .ok (skipState reason)
    | _ :: _ => .error TypeErrorExn,
   s.description, s.title⟩

/-- Embedding of `smol.core._head_n_tail(seq)`: raises `ValueError` on an
empty sequence, otherwise returns `(seq[0], seq[1:])` (a one-element
sequence yields an empty tail).  The error message reproduces the source's
spelling. -/
def head_n_tail {V : Type} (seq : List (Step V)) :
    Except String (Step V × List (Step V)) :=
  match seq with
  | [] => .error "Canno retrieve head and tail from empty sequence."
  | [x] => .ok (x, [])
  | x :: xs => .ok (x, xs)

/-- Embedding of `smol.core.Result`: a `(step, state)` named tuple. -/
structure Result (V : Type) where
  step : Step V
  state : State V

/-- Embedding of `smol.core.Spec` (attrs class): a tuple of steps plus
`description` and `title`. -/
structure Spec (V : Type) where
  steps : List (Step V)
  description : String
  title : String

/-- Embedding of attrs construction of `Spec`.  The only validator attached
to `steps` is `attr.validators.instance_of(tuple)`; the embedding's type
already guarantees a tuple, so construction always succeeds — in particular
no emptiness check is performed at construction time. -/
def mkSpec {V : Type} (steps : List (Step V)) (description title : String) :
    Except Exn (Spec V) :=
  .ok ⟨steps, description, title⟩

/-- Embedding of `Spec._run_step(step, **data)`: invoke the step's callable
inside the fault barrier; an escaping exception `e` becomes
`failure(f"Exception {type(e)} occured.")` (spelling as in the source). -/
def run_step {V : Type} (s : Step V) (data : Data V) : State V :=
  match s.func data with
  | .ok st => st
  | .error e => failure ("Exception " ++ e.tyRepr ++ " occured.")

/-- Error that can escape `run_all`: the `ValueError` from `_head_n_tail`,
or an exception propagating from a call made outside the fault barrier
(the `skip(step)()` call in the loop). -/
inductive RunErr where
  | valueError (msg : String)
  | exn (e : Exn)
deriving DecidableEq

/-- Embedding of the `for step in rest` loop of `Spec.run_all`, carrying the
previous state.  When the previous state `is_failure()` or has `skipped`
set, the runner executes `skip(step)()` — a call outside the fault barrier,
so an exception there would propagate (it provably cannot, see
`skip_func_nil`) — otherwise it runs the step through `_run_step` with the
previous state's data. -/
def run_loop {V : Type} : State V → List (Step V) → Except RunErr (List (Result V))
  | _, [] => .ok []
  | prev, s :: rest =>
    if prev.is_failure || prev.skipped then
      match (skip s none).func [] with
      | .error e => .error (.exn e)
      | .ok st => Except.map (fun l => ⟨s, st⟩ :: l) (run_loop st rest)
    else
      Except.map (fun l => ⟨s, run_step s prev.data⟩ :: l)
        (run_loop (run_step s prev.data) rest)

/-- Embedding of `Spec.run_all(**init_data)`: split the steps with
`_head_n_tail` (raising on an empty tuple), run the head through
`_run_step`, then process the tail with the loop. -/
def run_all {V : Type} (sp : Spec V) (init_data : Data V) :
    Except RunErr (List (Result V)) :=
  match head_n_tail sp.steps with
  | .error m => .error (.valueError m)
  | .ok (init, rest) =>
    Except.map (fun l => ⟨init, run_step init init_data⟩ :: l)
      (run_loop (run_step init init_data) rest)

/-- Instrumented variant of the loop: identical control flow to `run_loop`,
but each trace entry additionally records whether the step's original
callable was invoked (`true` exactly when the step went through
`_run_step`). -/
def run_loopI {V : Type} : State V → List (Step V) → Except RunErr (List (Result V × Bool))
  | _, [] => .ok []
  | prev, s :: rest =>
    if prev.is_failure || prev.skipped then
      match (skip s none).func [] with
      | .error e => .error (.exn e)
      | .ok st => Except.map (fun l => (⟨s, st⟩, false) :: l) (run_loopI st rest)
    else
      Except.map (fun l => (⟨s, run_step s prev.data⟩, true) :: l)
        (run_loopI (run_step s prev.data) rest)

/-- Instrumented variant of `run_all`; projecting away the invocation flags
recovers `run_all` (proved in `run_allI_fst`). -/
def run_allI {V : Type} (sp : Spec V) (init_data : Data V) :
    Except RunErr (List (Result V × Bool)) :=
  match head_n_tail sp.steps with
  | .error m => .error (.valueError m)
  | .ok (init, rest) =>
    Except.map (fun l => (⟨init, run_step init init_data⟩, true) :: l)
      (run_loopI (run_step init init_data) rest)

/-- Embedding of Python `str.split(sep)` on character lists: splits on every
occurrence of the separator, keeping empty fragments (so the result is
always non-empty). -/
def pySplit (sep : Char) : List Char → List (List Char)
  | [] => [[]]
  | c :: cs =>
    match pySplit sep cs with
    | [] => [[]]
    | w :: ws => if c = sep then [] :: w :: ws else (c :: w) :: ws

/-- Embedding of Python `sep.join(parts)` on character lists. -/
def pyJoin (sep : List Char) : List (List Char) → List Char
  | [] => []
  | [w] => w
  | w :: w2 :: ws => w ++ sep ++ pyJoin sep (w2 :: ws)

/-- Embedding of Python `str.capitalize()` (ASCII): first character
uppercased, every following character lowercased. -/
def pyCapitalize : List Char → List Char
  | [] => []
  | c :: cs => c.toUpper :: cs.map Char.toLower

/-- Embedding of `smol.core._title_from_func_name(func_name)`:
`" ".join(func_name.split("_")).capitalize() + "."`. -/
def title_from_func_name (func_name : String) : String :=
  String.mk (pyCapitalize (pyJoin [' '] (pySplit '_' func_name.data)) ++ ['.'])

/-- Title computation as the specification words it: split on underscores,
join with spaces, capitalize the FIRST letter (leaving the rest unchanged),
append a period.  Written from the spec, to be compared with
`title_from_func_name`, which embeds the source. -/
def claimTitle (func_name : String) : String :=
  String.mk
    ((match pyJoin [' '] (pySplit '_' func_name.data) with
      | [] => []
      | c :: cs => c.toUpper :: cs) ++ ['.'])

/-- Embedding of `smol.core._obj_doc(obj)`: the attached documentation
string, or the empty string when there is none. -/
def obj_doc (doc : Option String) : String :=
  match doc with
  | some s => s
  | none => ""

/-- A Python function argument as `step` sees it: an identifier
(`__name__`), an optional documentation string (`__doc__`), and the
callable itself. -/
structure PyFunc (V : Type) where
  name : String
  doc : Option String
  func : Data V → Except Exn (State V)

/-- Argument to `smol.core.step`: either a callable carrying an identifier,
or a bare title string (which has no `__name__`, so reading it raises
`AttributeError` and dispatches to the factory branch). -/
inductive FOrTitle (V : Type) where
  | callable (f : PyFunc V)
  | title (t : String)

/-- Outcome of `smol.core.step`: a finished `Step`, or a factory awaiting
the decorated callable. -/
inductive StepOrFactory (V : Type) where
  | made (s : Step V)
  | factory (mk : PyFunc V → Step V)

/-- Embedding of `smol.core.step(f_or_title)`: given a callable the `try`
branch builds a `Step` with inferred title and extracted documentation;
given a title string the `AttributeError` handler returns the `_factory`
closure, which builds a `Step` with that explicit title. -/
def step {V : Type} : FOrTitle V → StepOrFactory V
  | .callable f => .made ⟨f.func, obj_doc f.doc, title_from_func_name f.name⟩
  | .title t => .factory fun g => ⟨g.func, obj_doc g.doc, t⟩

/-- Embedding of Python `mapping[key]` on a dict: the value stored under the
key, or `none` for a `KeyError`. -/
def pyDictLookup {V : Type} (m : List (String × V)) (k : String) : Option V :=
  (m.find? (fun kv => kv.1 == k)).map Prod.snd

/-- Embedding of the generator `tuple(mapping[key] for key in mapping)` of
`smol.toolz.unpack`: iterate the mapping's OWN keys in order, indexing the
full mapping at each; `none` for a propagating `KeyError`. -/
def unpackTuple {V : Type} (sub full : List (String × V)) : Option (List V) :=
  match sub with
  | [] => some []
  | kv :: rest =>
    match pyDictLookup full kv.1 with
    | none => none
    | some v => (unpackTuple rest full).map (fun vs => v :: vs)

/-- Value returned by `smol.toolz.unpack`: a tuple of values, or a single
value when exactly one key was requested. -/
inductive UnpackRes (V : Type) where
  | tup (vs : List V)
  | single (v : V)
deriving DecidableEq

/-- Embedding of `smol.toolz.unpack(mapping, *keys)`:
`tuple(mapping[key] for key in mapping) if len(keys) > 1 else
mapping[keys[0]]`.  `none` models a propagating exception (`IndexError`
when no key is given, `KeyError` when the single requested key is
absent). -/
def unpack {V : Type} (mapping : List (String × V)) (keys : List String) :
    Option (UnpackRes V) :=
  if keys.length > 1 then
    (unpackTuple mapping mapping).map UnpackRes.tup
  else
    match keys with
    | [] => none
    | k :: _ => (pyDictLookup mapping k).map UnpackRes.single

/-- Number of outcome predicates (`is_success`, `is_failure`, `is_skipped`)
holding on a state. -/
def outcomeCount {V : Type} (st : State V) : Nat :=
  (if st.is_success then 1 else 0) + (if st.is_failure then 1 else 0) +
    (if st.is_skipped then 1 else 0)

/-- Boolean test for the `ok` branch of an `Except`. -/
def exceptIsOk {ε α : Type} : Except ε α → Bool
  | .ok _ => true
  | .error _ => false

/-- Sample step whose callable returns success with its input data. -/
def okStep : Step Nat :=
  ⟨fun d => .ok (success d), "", "ok"⟩

/-- Sample step whose callable returns a declared failure. -/
def failStep : Step Nat :=
  ⟨fun _ => .ok (failure "boom"), "", "fail"⟩

/-- Sample step whose callable raises `ValueError`. -/
def raiseStep : Step Nat :=
  ⟨fun _ => .error ⟨"<class 'ValueError'>"⟩, "", "raise"⟩

/-- Concrete spec used by witnesses: a failing step followed by a step that
would succeed. -/
def cexSpec : Spec Nat :=
  ⟨[failStep, okStep], "", ""⟩

/-- Instrumented trace `run_allI` produces on `cexSpec` with empty initial
data. -/
def cexTr : List (Result Nat × Bool) :=
  [(⟨failStep, failure "boom"⟩, true), (⟨okStep, skipState none⟩, false)]

/-- The zero-parameter lambda installed by `skip`, called with no keyword
arguments, returns the skip state and cannot raise. -/
theorem skip_func_nil {V : Type} (s : Step V) (r : Option String) :
    (skip s r).func [] = Except.ok (skipState r) := rfl

/-- On a non-empty sequence `_head_n_tail` returns head and tail. -/
theorem head_n_tail_cons {V : Type} (x : Step V) (xs : List (Step V)) :
    head_n_tail (x :: xs) = Except.ok (x, xs) := by
  cases xs <;> rfl

/-- Inversion for `Except.map` hitting an `ok` value. -/
theorem except_map_eq_ok {ε α β : Type} {f : α → β} {x : Except ε α} {b : β}
    (h : Except.map f x = Except.ok b) : ∃ a, x = Except.ok a ∧ b = f a := by
  cases x with
  | error e => simp [Except.map] at h
  | ok a => exact ⟨a, rfl, by simpa [Except.map] using h.symm⟩

/-- Unfolding equation for the loop on a non-empty tail: the skip branch is
taken exactly when the previous state failed or was skipped, and the skip
call deterministically yields the default skip state. -/
theorem run_loop_cons {V : Type} (prev : State V) (s : Step V)
    (rest : List (Step V)) :
    run_loop prev (s :: rest) =
      if prev.is_failure || prev.skipped then
        Except.map (fun l => ⟨s, skipState none⟩ :: l)
          (run_loop (skipState none) rest)
      else
        Except.map (fun l => ⟨s, run_step s prev.data⟩ :: l)
          (run_loop (run_step s prev.data) rest) := by
  cases h : prev.is_failure || prev.skipped
  · simp [run_loop, h]
  · simp only [run_loop, h]
    rfl

/-- Unfolding equation for the instrumented loop on a non-empty tail. -/
theorem run_loopI_cons {V : Type} (prev : State V) (s : Step V)
    (rest : List (Step V)) :
    run_loopI prev (s :: rest) =
      if prev.is_failure || prev.skipped then
        Except.map (fun l => (⟨s, skipState none⟩, false) :: l)
          (run_loopI (skipState none) rest)
      else
        Except.map (fun l => (⟨s, run_step s prev.data⟩, true) :: l)
          (run_loopI (run_step s prev.data) rest) := by
  cases h : prev.is_failure || prev.skipped
  · simp [run_loopI, h]
  · simp only [run_loopI, h]
    rfl

/-- Once the incoming state failed or was skipped, the loop converts every
remaining step to the default skip state. -/
theorem run_loop_skipAll {V : Type} (rest : List (Step V)) :
    ∀ prev : State V, (prev.is_failure || prev.skipped) = true →
      run_loop prev rest =
        Except.ok (rest.map fun s => ⟨s, skipState none⟩) := by
  induction rest with
  | nil => intro prev _; rfl
  | cons s rest ih =>
    intro prev h
    rw [run_loop_cons, if_pos h, ih (skipState none) rfl]
    rfl

/-- Instrumented version of `run_loop_skipAll`: every remaining step is
recorded with the skip state and an invocation flag of `false`. -/
theorem run_loopI_skipAll {V : Type} (rest : List (Step V)) :
    ∀ prev : State V, (prev.is_failure || prev.skipped) = true →
      run_loopI prev rest =
        Except.ok (rest.map fun s => ((⟨s, skipState none⟩ : Result V), false)) := by
  induction rest with
  | nil => intro prev _; rfl
  | cons s rest ih =>
    intro prev h
    rw [run_loopI_cons, if_pos h, ih (skipState none) rfl]
    rfl

/-- The loop never errors, produces one `Result` per step, and records the
steps in declaration order. -/
theorem run_loop_ok {V : Type} (rest : List (Step V)) :
    ∀ prev : State V, ∃ l, run_loop prev rest = Except.ok l ∧
      l.length = rest.length ∧
      ∀ i : Nat, (l[i]?).map Result.step = rest[i]? := by
  induction rest with
  | nil =>
    intro prev
    exact ⟨[], rfl, rfl, by intro i; simp⟩
  | cons s rest ih =>
    intro prev
    rw [run_loop_cons]
    by_cases h : (prev.is_failure || prev.skipped) = true
    · obtain ⟨l, hl, hlen, hget⟩ := ih (skipState none)
      refine ⟨⟨s, skipState none⟩ :: l, ?_, ?_, ?_⟩
      · rw [if_pos h, hl]; rfl
      · simpa using hlen
      · intro i
        cases i with
        | zero => simp
        | succ i => simpa using hget i
    · rw [if_neg h]
      obtain ⟨l, hl, hlen, hget⟩ := ih (run_step s prev.data)
      refine ⟨⟨s, run_step s prev.data⟩ :: l, ?_, ?_, ?_⟩
      · rw [hl]; rfl
      · simpa using hlen
      · intro i
        cases i with
        | zero => simp
        | succ i => simpa using hget i

/-- Forgetting the invocation flags of the instrumented loop recovers the
plain loop. -/
theorem run_loopI_fst {V : Type} (rest : List (Step V)) :
    ∀ prev : State V,
      Except.map (List.map Prod.fst) (run_loopI prev rest) =
        run_loop prev rest := by
  induction rest with
  | nil => intro prev; rfl
  | cons s rest ih =>
    intro prev
    rw [run_loop_cons, run_loopI_cons]
    by_cases h : (prev.is_failure || prev.skipped) = true
    · rw [if_pos h, if_pos h, ← ih (skipState none)]
      cases run_loopI (skipState none) rest <;> rfl
    · rw [if_neg h, if_neg h, ← ih (run_step s prev.data)]
      cases run_loopI (run_step s prev.data) rest <;> rfl

/-- Unfolding equation for the runner on an empty steps tuple: the
`ValueError` from `_head_n_tail` propagates. -/
theorem run_all_nil {V : Type} (sp : Spec V) (d : Data V) (h : sp.steps = []) :
    run_all sp d =
      Except.error (RunErr.valueError
        "Canno retrieve head and tail from empty sequence.") := by
  unfold run_all
  rw [h]
  rfl

/-- Unfolding equation for the runner on a non-empty steps tuple. -/
theorem run_all_cons {V : Type} (sp : Spec V) (d : Data V) (init : Step V)
    (rest : List (Step V)) (h : sp.steps = init :: rest) :
    run_all sp d =
      Except.map (fun l => ⟨init, run_step init d⟩ :: l)
        (run_loop (run_step init d) rest) := by
  unfold run_all
  rw [h, head_n_tail_cons]

/-- Unfolding equation for the instrumented runner on an empty steps
tuple. -/
theorem run_allI_nil {V : Type} (sp : Spec V) (d : Data V) (h : sp.steps = []) :
    run_allI sp d =
      Except.error (RunErr.valueError
        "Canno retrieve head and tail from empty sequence.") := by
  unfold run_allI
  rw [h]
  rfl

/-- Unfolding equation for the instrumented runner on a non-empty steps
tuple: the head always goes through `_run_step`, so its flag is `true`. -/
theorem run_allI_cons {V : Type} (sp : Spec V) (d : Data V) (init : Step V)
    (rest : List (Step V)) (h : sp.steps = init :: rest) :
    run_allI sp d =
      Except.map (fun l => (⟨init, run_step init d⟩, true) :: l)
        (run_loopI (run_step init d) rest) := by
  unfold run_allI
  rw [h, head_n_tail_cons]

/-- Forgetting the invocation flags of the instrumented runner recovers the
plain runner. -/
theorem run_allI_fst {V : Type} (sp : Spec V) (d : Data V) :
    Except.map (List.map Prod.fst) (run_allI sp d) = run_all sp d := by
  cases h : sp.steps with
  | nil => rw [run_all_nil sp d h, run_allI_nil sp d h]; rfl
  | cons init rest =>
    rw [run_all_cons sp d init rest h, run_allI_cons sp d init rest h,
      ← run_loopI_fst rest (run_step init d)]
    cases run_loopI (run_step init d) rest <;> rfl

/-- Cascade inside the loop: from any failing entry onwards, every later
entry carries a skipped state and an invocation flag of `false`. -/
theorem run_loopI_cascade {V : Type} (rest : List (Step V)) :
    ∀ (prev : State V) (l : List (Result V × Bool)),
      run_loopI prev rest = Except.ok l →
      ∀ i j : Nat, i < j →
      ∀ p q : Result V × Bool, l[i]? = some p → l[j]? = some q →
      p.1.state.is_failure = true →
      q.1.state.is_skipped = true ∧ q.2 = false := by
  induction rest with
  | nil =>
    intro prev l hl i j _ p q hp _ _
    simp [run_loopI] at hl
    subst hl
    simp at hp
  | cons s rest ih =>
    intro prev l hl i j hij p q hp hq hfail
    rw [run_loopI_cons] at hl
    by_cases h : (prev.is_failure || prev.skipped) = true
    · rw [if_pos h] at hl
      obtain ⟨l', hl', rfl⟩ := except_map_eq_ok hl
      cases i with
      | zero =>
        simp at hp
        rw [← hp] at hfail
        simp [skipState, State.is_failure] at hfail
      | succ i =>
        cases j with
        | zero => omega
        | succ j =>
          simp only [List.getElem?_cons_succ] at hp hq
          exact ih (skipState none) l' hl' i j (by omega) p q hp hq hfail
    · rw [if_neg h] at hl
      obtain ⟨l', hl', rfl⟩ := except_map_eq_ok hl
      cases j with
      | zero => omega
      | succ j =>
        simp only [List.getElem?_cons_succ] at hq
        cases i with
        | zero =>
          simp at hp
          rw [← hp] at hfail
          have hcasc := run_loopI_skipAll rest (run_step s prev.data)
            (by simp [hfail])
          rw [hcasc] at hl'
          cases hl'
          rw [List.getElem?_map] at hq
          cases hrest : rest[j]? with
          | none => rw [hrest] at hq; simp at hq
          | some s2 =>
            rw [hrest] at hq
            simp only [Option.map_some'] at hq
            cases hq
            exact ⟨rfl, rfl⟩
        | succ i =>
          simp only [List.getElem?_cons_succ] at hp
          exact ih (run_step s prev.data) l' hl' i j (by omega) p q hp hq hfail

/-- Splitting always produces at least one fragment. -/
theorem pySplit_ne_nil (sep : Char) (l : List Char) : pySplit sep l ≠ [] := by
  cases l with
  | nil => simp [pySplit]
  | cons c cs =>
    simp only [pySplit]
    cases pySplit sep cs with
    | nil => simp
    | cons w ws =>
      by_cases h : c = sep <;> simp [h]

/-- Splitting on a character and joining with another replaces each
occurrence of the first character by the second. -/
theorem pyJoin_pySplit (sep r : Char) (l : List Char) :
    pyJoin [r] (pySplit sep l) =
      l.map (fun x => if x = sep then r else x) := by
  induction l with
  | nil => rfl
  | cons c cs ih =>
    cases h : pySplit sep cs with
    | nil => exact absurd h (pySplit_ne_nil sep cs)
    | cons w ws =>
      rw [h] at ih
      simp only [pySplit, h]
      by_cases hc : c = sep
      · rw [if_pos hc]
        simp only [pyJoin, List.nil_append, List.map, if_pos hc]
        rw [ih]
        rfl
      · rw [if_neg hc]
        simp only [List.map, if_neg hc]
        cases ws with
        | nil =>
          simp only [pyJoin] at ih ⊢
          rw [ih]
        | cons w2 ws2 =>
          simp only [pyJoin, List.cons_append] at ih ⊢
          rw [← ih]

/-- In a dictionary (keys pairwise distinct), looking up any of its own
keys yields the value stored beside it. -/
theorem pyDictLookup_own {V : Type} (m : List (String × V))
    (hnd : (m.map Prod.fst).Nodup) :
    ∀ kv ∈ m, pyDictLookup m kv.1 = some kv.2 := by
  induction m with
  | nil => intro kv hkv; simp at hkv
  | cons a m ih =>
    simp only [List.map, List.nodup_cons] at hnd
    obtain ⟨ha, hnd'⟩ := hnd
    intro kv hkv
    cases hkv with
    | head =>
      simp [pyDictLookup, List.find?]
    | tail _ hmem =>
      have hne : a.1 ≠ kv.1 := by
        intro he
        exact ha (he ▸ List.mem_map_of_mem Prod.fst hmem)
      simp only [pyDictLookup, List.find?]
      rw [show (a.1 == kv.1) = false from beq_eq_false_iff_ne.mpr hne]
      exact ih hnd' kv hmem

/-- Indexing the full dictionary at each of the keys of a sublist of it
(with lookups resolved against the full dictionary) yields exactly the
sublist's values. -/
theorem unpackTuple_sub {V : Type} (full : List (String × V)) :
    ∀ sub : List (String × V),
      (∀ kv ∈ sub, pyDictLookup full kv.1 = some kv.2) →
      unpackTuple sub full = some (sub.map Prod.snd) := by
  intro sub
  induction sub with
  | nil => intro _; rfl
  | cons kv rest ih =>
    intro h
    simp only [unpackTuple, h kv (List.mem_cons_self kv rest)]
    rw [ih (fun kv2 hkv2 => h kv2 (List.mem_cons_of_mem kv hkv2))]
    rfl

/-- On a dictionary, the `tuple(mapping[key] for key in mapping)` generator
returns the dictionary's values in iteration order. -/
theorem unpackTuple_own {V : Type} (m : List (String × V))
    (hnd : (m.map Prod.fst).Nodup) :
    unpackTuple m m = some (m.map Prod.snd) :=
  unpackTuple_sub m m (pyDictLookup_own m hnd)

/-- C1: for every non-empty steps sequence of length N and every initial
data mapping, `Spec.run_all` returns a trace of exactly N `Result`s, where
the i-th `Result` pairs the i-th declared `Step` with the `State` obtained
for it, regardless of any intermediate failures or faults. -/
theorem trace_length_invariant {V : Type} (sp : Spec V) (d : Data V)
    (h : sp.steps ≠ []) :
    ∃ tr, run_all sp d = Except.ok tr ∧ tr.length = sp.steps.length ∧
      ∀ i : Nat, (tr[i]?).map Result.step = sp.steps[i]? := by
  cases hsteps : sp.steps with
  | nil => exact absurd hsteps h
  | cons init rest =>
    obtain ⟨l, hl, hlen, hget⟩ := run_loop_ok rest (run_step init d)
    refine ⟨⟨init, run_step init d⟩ :: l, ?_, ?_, ?_⟩
    · rw [run_all_cons sp d init rest hsteps, hl]
      rfl
    · simpa using hlen
    · intro i
      cases i with
      | zero => simp
      | succ i => simpa using hget i

/-- Witness for C1 at a concrete one-step spec. -/
theorem trace_length_invariant_witness :
    ∃ tr, run_all (⟨[okStep], "", ""⟩ : Spec Nat) [] = Except.ok tr ∧
      tr.length = (⟨[okStep], "", ""⟩ : Spec Nat).steps.length ∧
      ∀ i : Nat,
        (tr[i]?).map Result.step = (⟨[okStep], "", ""⟩ : Spec Nat).steps[i]? :=
  trace_length_invariant ⟨[okStep], "", ""⟩ [] (by simp)

/-- C2: once some step's `State` satisfies `is_failure()`, every subsequent
`Result` in the trace has a skipped `State` and its step's original
callable is never invoked (instrumentation flag `false`); projecting away
the instrumentation recovers `run_all` itself. -/
theorem short_circuit_cascade {V : Type} (sp : Spec V) (d : Data V)
    (tr : List (Result V × Bool)) (h : run_allI sp d = Except.ok tr)
    (i j : Nat) (hij : i < j) (p q : Result V × Bool)
    (hp : tr[i]? = some p) (hq : tr[j]? = some q)
    (hfail : p.1.state.is_failure = true) :
    q.1.state.is_skipped = true ∧ q.2 = false ∧
      Except.map (List.map Prod.fst) (run_allI sp d) = run_all sp d := by
  cases hsteps : sp.steps with
  | nil =>
    rw [run_allI_nil sp d hsteps] at h
    simp at h
  | cons init rest =>
    rw [run_allI_cons sp d init rest hsteps] at h
    obtain ⟨l, hl, rfl⟩ := except_map_eq_ok h
    cases j with
    | zero => omega
    | succ j =>
      simp only [List.getElem?_cons_succ] at hq
      cases i with
      | zero =>
        simp at hp
        rw [← hp] at hfail
        simp only at hfail
        have hcasc := run_loopI_skipAll rest (run_step init d)
          (by simp [hfail])
        rw [hcasc] at hl
        cases hl
        rw [List.getElem?_map] at hq
        cases hrest : rest[j]? with
        | none => rw [hrest] at hq; simp at hq
        | some s2 =>
          rw [hrest] at hq
          simp only [Option.map_some'] at hq
          cases hq
          exact ⟨rfl, rfl, run_allI_fst sp d⟩
      | succ i =>
        simp only [List.getElem?_cons_succ] at hp
        obtain ⟨h1, h2⟩ := run_loopI_cascade rest (run_step init d) l hl
          i j (by omega) p q hp hq hfail
        exact ⟨h1, h2, run_allI_fst sp d⟩

/-- Witness for C2 at a concrete two-step spec whose first step fails. -/
theorem short_circuit_cascade_witness :
    ((⟨okStep, skipState none⟩, false) : Result Nat × Bool).1.state.is_skipped
        = true ∧
    ((⟨okStep, skipState none⟩, false) : Result Nat × Bool).2 = false ∧
      Except.map (List.map Prod.fst) (run_allI cexSpec []) =
        run_all cexSpec [] :=
  short_circuit_cascade cexSpec [] cexTr rfl 0 1 (by omega)
    (⟨failStep, failure "boom"⟩, true) (⟨okStep, skipState none⟩, false)
    rfl rfl rfl

/-- C3 counterexample: the fault barrier's message is spelled "occured.",
not "occurred." as the claim states, at the concrete raising step. -/
theorem fault_message_counterexample :
    (run_step raiseStep []).msg =
      some "Exception <class 'ValueError'> occured." ∧
    (run_step raiseStep []).msg ≠
      some "Exception <class 'ValueError'> occurred." :=
  ⟨rfl, by decide⟩

/-- C3 amended: a step callable that raises (including the very first step)
does not let the exception escape `run_all`; it is converted into a failure
`State` recorded in the trace, with message
`"Exception <type> occured."` (spelling as in the source). -/
theorem fault_barrier_amended {V : Type} (sp : Spec V) (d : Data V)
    (init : Step V) (rest : List (Step V)) (e : Exn)
    (hs : sp.steps = init :: rest) :
    (∃ tr, run_all sp d = Except.ok tr ∧
      tr[0]? = some ⟨init, run_step init d⟩) ∧
    (init.func d = Except.error e →
      run_step init d =
        failure ("Exception " ++ e.tyRepr ++ " occured.")) := by
  constructor
  · obtain ⟨l, hl, _, _⟩ := run_loop_ok rest (run_step init d)
    refine ⟨⟨init, run_step init d⟩ :: l, ?_, by simp⟩
    rw [run_all_cons sp d init rest hs, hl]
    rfl
  · intro he
    simp [run_step, he]

/-- Witness for C3's amended theorem at a step raising `ValueError`. -/
theorem fault_barrier_amended_witness :
    (∃ tr, run_all (⟨[raiseStep], "", ""⟩ : Spec Nat) [] = Except.ok tr ∧
      tr[0]? = some ⟨raiseStep, run_step raiseStep []⟩) ∧
    run_step raiseStep [] =
      failure ("Exception " ++ "<class 'ValueError'>" ++ " occured.") :=
  ⟨(fault_barrier_amended ⟨[raiseStep], "", ""⟩ [] raiseStep []
      ⟨"<class 'ValueError'>"⟩ rfl).1,
   (fault_barrier_amended ⟨[raiseStep], "", ""⟩ [] raiseStep []
      ⟨"<class 'ValueError'>"⟩ rfl).2 rfl⟩

/-- C4: running a spec with an empty steps sequence fails with the
structural `ValueError` (raised by `_head_n_tail` before any step runs) and
yields no trace; a single-step sequence yields an empty tail and a trace of
length 1. -/
theorem empty_and_single_step {V : Type} (spe sps : Spec V) (d : Data V)
    (s : Step V) (he : spe.steps = []) (hs : sps.steps = [s]) :
    run_all spe d =
      Except.error (RunErr.valueError
        "Canno retrieve head and tail from empty sequence.") ∧
    head_n_tail sps.steps = Except.ok (s, []) ∧
    (∃ tr, run_all sps d = Except.ok tr ∧ tr.length = 1) := by
  refine ⟨run_all_nil spe d he, ?_, ?_⟩
  · rw [hs]
    rfl
  · refine ⟨[⟨s, run_step s d⟩], ?_, rfl⟩
    rw [run_all_cons sps d s [] hs]
    rfl

/-- Witness for C4 at a concrete empty spec and a concrete one-step spec. -/
theorem empty_and_single_step_witness :
    run_all (⟨[], "", ""⟩ : Spec Nat) [] =
      Except.error (RunErr.valueError
        "Canno retrieve head and tail from empty sequence.") ∧
    head_n_tail (⟨[okStep], "", ""⟩ : Spec Nat).steps =
      Except.ok (okStep, []) ∧
    (∃ tr, run_all (⟨[okStep], "", ""⟩ : Spec Nat) [] = Except.ok tr ∧
      tr.length = 1) :=
  empty_and_single_step ⟨[], "", ""⟩ ⟨[okStep], "", ""⟩ [] okStep rfl rfl

/-- C5: `success(d)` yields `break_execution=false`, `skipped=false`,
`msg=None`, `data=d`; `failure(m)` yields `break_execution=true`,
`skipped=false`, `msg=m`, empty `data`. -/
theorem outcome_constructors {V : Type} (d : Data V) (m : String) :
    (success d).break_execution = false ∧ (success d).skipped = false ∧
    (success d).msg = none ∧ (success d).data = d ∧
    (failure m : State V).break_execution = true ∧
    (failure m : State V).skipped = false ∧
    (failure m : State V).msg = some m ∧ (failure m : State V).data = [] :=
  ⟨rfl, rfl, rfl, rfl, rfl, rfl, rfl, rfl⟩

/-- C6 counterexample: the callable of a skip-produced step is a
zero-parameter lambda, so invoking it with a keyword argument raises
`TypeError` instead of returning the skip `State` the claim promises. -/
theorem skip_args_counterexample :
    (skip okStep none).func [("x", (0 : Nat))] = Except.error TypeErrorExn ∧
    (Except.error TypeErrorExn : Except Exn (State Nat)) ≠
      Except.ok (skipState none) :=
  ⟨rfl, by simp⟩

/-- C6 amended: `skip(s, r)` returns a copy of `s` (same title and
description, only the callable replaced) whose callable, invoked with NO
arguments, returns a `State` with `skipped=true` and `msg = r` if provided,
else `"Step skipped."`; invoked with any keyword argument it raises
`TypeError`. -/
theorem skip_step_amended {V : Type} (s : Step V) (r : Option String) :
    (skip s r).title = s.title ∧ (skip s r).description = s.description ∧
    (skip s r).func [] = Except.ok (skipState r) ∧
    (skipState r : State V).is_skipped = true ∧
    (skipState r : State V).msg = some (r.getD "Step skipped.") ∧
    ∀ (kv : String × V) (d : Data V),
      (skip s r).func (kv :: d) = Except.error TypeErrorExn :=
  ⟨rfl, rfl, rfl, rfl, rfl, fun _ _ => rfl⟩

/-- C7 counterexample: constructing a `Spec` with an empty steps sequence
succeeds — the only attrs validator checks that `steps` is a tuple, so no
error is raised at construction time, contrary to the claim. -/
theorem empty_spec_construction_counterexample :
    mkSpec ([] : List (Step Nat)) "" "" =
      Except.ok ⟨[], "", ""⟩ ∧
    exceptIsOk (mkSpec ([] : List (Step Nat)) "" "") = true :=
  ⟨rfl, rfl⟩

/-- C7 amended: the steps sequence is fixed at construction; RUNNING a spec
with an empty steps sequence is an error, but CONSTRUCTING one succeeds
(only the tuple type of `steps` is validated). -/
theorem spec_construction_amended {V : Type} (steps : List (Step V))
    (de ti : String) (d : Data V) :
    mkSpec steps de ti = Except.ok ⟨steps, de, ti⟩ ∧
    run_all (⟨[], de, ti⟩ : Spec V) d =
      Except.error (RunErr.valueError
        "Canno retrieve head and tail from empty sequence.") :=
  ⟨rfl, run_all_nil ⟨[], de, ti⟩ d rfl⟩

/-- C8 counterexample: on the identifier `"get_URL"` the code produces the
title `"Get url."` — Python's `capitalize()` lowercases everything after
the first character — whereas the claim's description ("first letter
capitalized") yields `"Get URL."`. -/
theorem step_capitalize_counterexample :
    step (FOrTitle.callable (⟨"get_URL", none, okStep.func⟩ : PyFunc Nat)) =
      StepOrFactory.made ⟨okStep.func, "", "Get url."⟩ ∧
    claimTitle "get_URL" = "Get URL." ∧
    ("Get url." : String) ≠ "Get URL." :=
  ⟨rfl, rfl, by decide⟩

/-- C8 amended: `step` on a callable infers the title by replacing
underscores with spaces, uppercasing the first character, LOWERCASING all
remaining characters, and appending a period; the description is the
callable's documentation string or `""`.  On a title string it returns a
factory producing a `Step` with that explicit title and the decorated
callable's documentation. -/
theorem step_constructor_amended {V : Type} (f : PyFunc V) (t : String) :
    step (FOrTitle.callable f) =
      StepOrFactory.made ⟨f.func, obj_doc f.doc, title_from_func_name f.name⟩ ∧
    title_from_func_name f.name =
      String.mk (pyCapitalize
        (f.name.data.map fun c => if c = '_' then ' ' else c) ++ ['.']) ∧
    obj_doc f.doc = f.doc.getD "" ∧
    (∃ mk, step (FOrTitle.title t : FOrTitle V) = StepOrFactory.factory mk ∧
      ∀ g : PyFunc V, mk g = ⟨g.func, obj_doc g.doc, t⟩) := by
  refine ⟨rfl, ?_, ?_, ⟨_, rfl, fun g => rfl⟩⟩
  · unfold title_from_func_name
    rw [pyJoin_pySplit]
  · cases f.doc <;> rfl

/-- C9: each of the three outcome constructors yields a `State` on which
exactly one of `is_success`, `is_failure`, `is_skipped` holds, and a skip
`State` carries only a message (its data dict is empty). -/
theorem outcome_exclusivity {V : Type} (d : Data V) (m : String) (s : Step V)
    (r : Option String) :
    outcomeCount (success d) = 1 ∧ outcomeCount (failure m : State V) = 1 ∧
    (skip s r).func [] = Except.ok (skipState r) ∧
    outcomeCount (skipState r : State V) = 1 ∧
    (skipState r : State V).data = [] :=
  ⟨rfl, rfl, rfl, rfl, rfl⟩

/-- C10: with two or more requested keys, `unpack` returns the tuple of the
mapping's values for all of the mapping's own keys in iteration order,
independent of which keys were requested; with exactly one requested key it
returns the value stored under that key. -/
theorem unpack_behavior {V : Type} (m : List (String × V))
    (keys keys2 : List String) (k : String) (v : V)
    (hnd : (m.map Prod.fst).Nodup) (h2 : 2 ≤ keys.length)
    (h2b : 2 ≤ keys2.length) (hk : pyDictLookup m k = some v) :
    unpack m keys = some (UnpackRes.tup (m.map Prod.snd)) ∧
    unpack m keys = unpack m keys2 ∧
    unpack m [k] = some (UnpackRes.single v) := by
  have htup : ∀ ks : List String, 2 ≤ ks.length →
      unpack m ks = some (UnpackRes.tup (m.map Prod.snd)) := by
    intro ks hks
    unfold unpack
    rw [if_pos (by omega), unpackTuple_own m hnd]
    rfl
  refine ⟨htup keys h2, ?_, ?_⟩
  · rw [htup keys h2, htup keys2 h2b]
  · unfold unpack
    rw [if_neg (by simp)]
    simp [hk]

/-- Witness for C10: the requested keys `["nope", "nah"]` are absent from
the mapping, yet `unpack` returns the mapping's own values. -/
theorem unpack_behavior_witness :
    unpack [("a", 1), ("b", 2)] ["nope", "nah"] =
      some (UnpackRes.tup [1, 2]) ∧
    unpack [("a", 1), ("b", 2)] ["nope", "nah"] =
      unpack [("a", 1), ("b", 2)] ["b", "a"] ∧
    unpack [("a", 1), ("b", 2)] ["a"] = some (UnpackRes.single 1) :=
  unpack_behavior [("a", 1), ("b", 2)] ["nope", "nah"] ["b", "a"] "a" 1
    (by decide) (by decide) (by decide) rfl

end Smol
